import Mathlib

/-!
Verification development for the selection-bias stippling pipeline.

The Python sources are shallowly embedded over exact rational arithmetic:
2D numpy float arrays become `NDArr` (a stored shape plus a list of rows of
rationals, numpy's shape being metadata carried alongside the buffer), and
fallible functions return `Except String`.  The masking step
(`step5_create_masked.py`), the tonal analyzer (`step3_create_tonal.py`) and
the block-letter mask generator (`step4_create_block_letter.py`) are
translated directly from the sources; the stippling core
(`importance_map.compute_importance` and
`stippling_functions.void_and_cluster`) is not present in the repository
sources and is modelled from the specification where marked.
-/

deriving instance DecidableEq for Except

/-- A 2D numpy-style array: explicit shape metadata plus row data.
Well-formedness (`NDArr.wf`) ties the metadata to the data. -/
structure NDArr where
  h : ℕ
  w : ℕ
  data : List (List ℚ)
deriving DecidableEq, Repr

/-- The numpy `shape` tuple of an array. -/
def NDArr.shape (a : NDArr) : ℕ × ℕ := (a.h, a.w)

/-- The array's data really has `h` rows of `w` entries each. -/
def NDArr.wf (a : NDArr) : Prop :=
  a.data.length = a.h ∧ ∀ row ∈ a.data, row.length = a.w

instance (a : NDArr) : Decidable a.wf := by
  unfold NDArr.wf; infer_instance

/-- Entry at row `i`, column `j` (0 outside the data, as with `List.getD`). -/
def NDArr.cell (a : NDArr) (i j : ℕ) : ℚ :=
  (a.data.getD i []).getD j 0

/-- `np.clip(x, 0.0, 1.0)` on one scalar. -/
def clip01 (x : ℚ) : ℚ := min (max x 0) 1

/-- The array of shape `h × w` holding `v` everywhere (`np.full`). -/
def constArr (h w : ℕ) (v : ℚ) : NDArr :=
  ⟨h, w, List.replicate h (List.replicate w v)⟩

/-- One output cell of the masking step: the boolean-mask assignment
`masked[mask < threshold] = 1.0` followed by `np.clip(masked, 0.0, 1.0)`. -/
def maskCell (t s m : ℚ) : ℚ :=
  clip01 (if m < t then 1 else s)

/-- Embedding of `create_masked_stipple` from `src/step5_create_masked.py`:
shape check, threshold check, copy, boolean-mask assignment to 1.0 where the
mask is below the threshold, and a final clip to [0, 1]. -/
def create_masked_stipple (stipple_img mask_img : NDArr) (threshold : ℚ) :
    Except String NDArr :=
  if stipple_img.shape ≠ mask_img.shape then
    .error "stipple_img and mask_img must have the same shape"
  else if ¬ (0 ≤ threshold ∧ threshold ≤ 1) then
    .error "threshold must be within [0, 1]"
  else
    .ok ⟨stipple_img.h, stipple_img.w,
      List.zipWith (fun srow mrow =>
          List.zipWith (fun s m => maskCell threshold s m) srow mrow)
        stipple_img.data mask_img.data⟩

/-! ### A small heap model for the in-place behaviour of the masking step

To state that `create_masked_stipple` never mutates its argument buffers we
re-embed it over an explicit store of numpy buffers: a reference is an index
into the store, `np.asarray` on a float array returns the same reference,
`.copy()` and `np.clip` allocate fresh buffers, and the boolean-mask
assignment `masked[mask < threshold] = 1.0` writes in place through its
reference. -/

/-- A store of numpy buffers; a buffer reference is an index into the list. -/
abbrev Heap := List (List (List ℚ))

/-- Allocate a fresh buffer, returning the new store and the fresh reference. -/
def Heap.alloc (st : Heap) (v : List (List ℚ)) : Heap × ℕ :=
  (st ++ [v], st.length)

/-- Dereference a buffer (the empty buffer outside the store). -/
def Heap.get (st : Heap) (r : ℕ) : List (List ℚ) :=
  st.getD r []

/-- Overwrite the buffer behind reference `r` in place. -/
def Heap.put (st : Heap) (r : ℕ) (v : List (List ℚ)) : Heap :=
  st.set r v

/-- Shape of a raw rectangular buffer: rows and width of the first row. -/
def shape2 (v : List (List ℚ)) : ℕ × ℕ := (v.length, (v.headD []).length)

/-- The in-place boolean-mask assignment `masked[mask < threshold] = 1.0`
followed by no clipping (clipping allocates separately in the source). -/
def maskAssign (t : ℚ) (a m : List (List ℚ)) : List (List ℚ) :=
  List.zipWith (fun arow mrow =>
    List.zipWith (fun x y => if y < t then (1 : ℚ) else x) arow mrow) a m

/-- `np.clip(a, 0.0, 1.0)` on a whole buffer, producing a fresh buffer. -/
def clipBuf (a : List (List ℚ)) : List (List ℚ) :=
  a.map (·.map clip01)

/-- Store-passing embedding of `create_masked_stipple` mirroring which numpy
buffer each operation reads or writes: `np.asarray` aliases the inputs,
`stipple.copy()` allocates `masked`, the boolean-mask assignment mutates only
`masked`, and `np.clip` allocates the returned buffer. -/
def create_masked_stipple_heap (st : Heap) (rs rm : ℕ) (threshold : ℚ) :
    Except String (Heap × ℕ) :=
  let stipple := st.get rs
  let mask := st.get rm
  if shape2 stipple ≠ shape2 mask then
    .error "stipple_img and mask_img must have the same shape"
  else if ¬ (0 ≤ threshold ∧ threshold ≤ 1) then
    .error "threshold must be within [0, 1]"
  else
    let (st1, rmasked) := st.alloc stipple
    let st2 := st1.put rmasked (maskAssign threshold (st1.get rmasked) (st1.get rm))
    let (st3, rout) := st2.alloc (clipBuf (st2.get rmasked))
    .ok (st3, rout)

/-! ### Tonal grid analyzer (`src/step3_create_tonal.py`) -/

/-- Entry `(i, j)` of a raw 2D grid (0 outside the data). -/
def gridAt (A : List (List ℚ)) (i j : ℕ) : ℚ :=
  (A.getD i []).getD j 0

/-- `np.mean` over a 2D slice: total sum divided by total element count.
On an empty slice numpy yields NaN, which has no rational counterpart (the
division below yields 0 instead); every theorem therefore only applies
`npMean` to non-empty slices, which `0 < rows ≤ H` and `0 < cols ≤ W`
guarantee for the tonal grid's sections. -/
def npMean (xss : List (List ℚ)) : ℚ :=
  (xss.map List.sum).sum / ((xss.map List.length).sum : ℚ)

/-- `np.min` over a flattened non-empty list (0 on the empty list). -/
def npMin : List ℚ → ℚ
  | [] => 0
  | x :: xs => xs.foldl min x

/-- `np.max` over a flattened non-empty list (0 on the empty list). -/
def npMax : List ℚ → ℚ
  | [] => 0
  | x :: xs => xs.foldl max x

/-- The square of `np.std`: the mean of squared deviations from the mean.
`np.std` itself is the (irrational) square root of this quantity, so the
development states every standard-deviation fact through its square. -/
def npStdSq (xss : List (List ℚ)) : ℚ :=
  npMean (xss.map (·.map (fun x => (x - npMean xss) ^ 2)))

/-- The numpy slice `a[ys:ye, xs:xe]`. -/
def slice2 (a : List (List ℚ)) (ys ye xs xe : ℕ) : List (List ℚ) :=
  ((a.drop ys).take (ye - ys)).map (fun row => (row.drop xs).take (xe - xs))

/-- Row start of grid section `i`: `y_start = i * section_h`. -/
def secStart (sh i : ℕ) : ℕ := i * sh

/-- Row end of grid section `i`: `(i + 1) * section_h`, except that the last
section extends to the image border. -/
def secEnd (extent sh rows i : ℕ) : ℕ :=
  if i < rows - 1 then (i + 1) * sh else extent

/-- Statistics dictionary returned by `create_tonal`; `stdSq` stands for the
square of the `'std'` entry (see `npStdSq`). -/
structure TonalStats where
  mean : ℚ
  stdSq : ℚ
  min : ℚ
  max : ℚ
  section_coords : List (ℕ × ℕ × ℚ)
deriving DecidableEq, Repr

/-- The grid of per-section average tones computed by the double loop of
`create_tonal`: entry `(i, j)` is `np.mean` of the numpy slice
`gray_img[y_start:y_end, x_start:x_end]`. -/
def averageTones (gray : NDArr) (grid_rows grid_cols : ℕ) : List (List ℚ) :=
  let sh := gray.h / grid_rows
  let sw := gray.w / grid_cols
  (List.range grid_rows).map (fun i =>
    (List.range grid_cols).map (fun j =>
      npMean (slice2 gray.data (secStart sh i) (secEnd gray.h sh grid_rows i)
        (secStart sw j) (secEnd gray.w sw grid_cols j))))

/-- The numpy region assignment `img[ys:ye, xs:xe] = v`. -/
def setRegion (img : List (List ℚ)) (ys ye xs xe : ℕ) (v : ℚ) :
    List (List ℚ) :=
  img.mapIdx (fun y row =>
    if ys ≤ y ∧ y < ye then
      row.mapIdx (fun x o => if xs ≤ x ∧ x < xe then v else o)
    else row)

/-- The full-size tonal image built by `create_tonal` when
`return_full_image` is true: start from `np.zeros_like(gray_img)` and fill
each grid section with its average tone, looping over `i` then `j`. -/
def fillTonal (gray : NDArr) (grid_rows grid_cols : ℕ)
    (avg : List (List ℚ)) : List (List ℚ) :=
  let sh := gray.h / grid_rows
  let sw := gray.w / grid_cols
  ((List.range grid_rows).flatMap (fun i =>
      (List.range grid_cols).map (fun j => (i, j)))).foldl
    (fun img ij =>
      setRegion img (secStart sh ij.1) (secEnd gray.h sh grid_rows ij.1)
        (secStart sw ij.2) (secEnd gray.w sw grid_cols ij.2)
        (gridAt avg ij.1 ij.2))
    (List.replicate gray.h (List.replicate gray.w 0))

/-- Embedding of `create_tonal` from `src/step3_create_tonal.py`: per-section
averages over a `grid_rows × grid_cols` grid (sections of size
`h // grid_rows × w // grid_cols`, the last row and column of sections
extended to the border), loop-order `section_coords`, statistics taken over
the grid of averages, and optionally the full-size section-filled image. -/
def create_tonal (gray : NDArr) (grid_rows grid_cols : ℕ)
    (return_full_image : Bool) :
    List (List ℚ) × List (List ℚ) × TonalStats :=
  let avg := averageTones gray grid_rows grid_cols
  let coords := (List.range grid_rows).flatMap (fun i =>
    (List.range grid_cols).map (fun j => (i, j, (avg.getD i []).getD j 0)))
  let stats : TonalStats :=
    { mean := npMean avg
      stdSq := npStdSq avg
      min := npMin avg.flatten
      max := npMax avg.flatten
      section_coords := coords }
  let tonal_img :=
    if return_full_image then fillTonal gray grid_rows grid_cols avg else avg
  (tonal_img, avg, stats)

/-! ### Block letter mask generator (`src/step4_create_block_letter.py`)

The Pillow drawing primitives (font loading, `textbbox`, `draw.text`) are
external library calls whose output depends on installed fonts; they are
abstracted as an oracle.  Pillow guarantees that an `"L"`-mode canvas of size
`(width, height)` converts to a `height × width` array of 8-bit values, which
is the oracle's well-formedness condition. -/

/-- Python `int()` on a non-negative rational: truncation toward zero. -/
def pyTrunc (q : ℚ) : ℤ := Int.tdiv q.num q.den

/-- Oracle for the Pillow calls of `create_block_letter_s`: `bboxOf fs s` is
`draw.textbbox((0, 0), s, font)` for the font loaded at size `fs`, and
`rendered width height (x, y) s fs` is the pixel buffer of the white
`"L"`-mode canvas after `draw.text((x, y), s, fill=0, font)`. -/
structure PILOracle where
  bboxOf : ℕ → String → ℤ × ℤ × ℤ × ℤ
  rendered : ℕ → ℕ → ℤ × ℤ → String → ℕ → List (List ℕ)

/-- Pillow's guarantee: an `"L"`-mode canvas of size `(width, height)`
yields `height` rows of `width` 8-bit pixels. -/
def PILOracle.wf (M : PILOracle) : Prop :=
  ∀ w h pos s fs, (M.rendered w h pos s fs).length = h ∧
    ∀ row ∈ M.rendered w h pos s fs, row.length = w ∧ ∀ v ∈ row, v ≤ 255

/-- The font-shrinking loop of `create_block_letter_s`: while the text bbox
exceeds the target box and the font size is above 1, scale the size by 0.9
(`font_size = max(1, int(font_size * 0.9))`) and re-measure. -/
def shrinkFont (bbox : ℕ → ℤ × ℤ × ℤ × ℤ) (maxW maxH : ℕ) (fs : ℕ) : ℕ :=
  let (l, t, r, b) := bbox fs
  if h : ((maxW : ℤ) < r - l ∨ (maxH : ℤ) < b - t) ∧ 1 < fs then
    shrinkFont bbox maxW maxH (max 1 (pyTrunc ((fs : ℚ) * (9 / 10))).toNat)
  else fs
termination_by fs
decreasing_by
  have h2 : (0 : ℚ) ≤ (fs : ℚ) * (9 / 10) := by positivity
  have h3 : pyTrunc ((fs : ℚ) * (9 / 10)) = ⌊(fs : ℚ) * (9 / 10)⌋ := by
    rw [Rat.floor_def]
    exact Int.tdiv_eq_ediv (Rat.num_nonneg.mpr h2) (by positivity)
  have h4 : ⌊(fs : ℚ) * (9 / 10)⌋ < (fs : ℤ) := by
    rw [Int.floor_lt]
    push_cast
    have h1 : (1 : ℚ) < (fs : ℚ) := by exact_mod_cast h.2
    nlinarith [h1]
  have h5 : (pyTrunc ((fs : ℚ) * (9 / 10))).toNat < fs := by
    rw [h3]
    exact (Int.toNat_lt (Int.floor_nonneg.mpr h2)).mpr h4
  simp only [max_lt_iff]
  exact ⟨h.2, h5⟩

/-- Embedding of `create_block_letter_s` from
`src/step4_create_block_letter.py` over a Pillow oracle: validation, font
sizing from the smaller dimension, the bbox-driven shrinking loop, centering
(`//` is floor division, `ℤ` division by the positive 2 here), drawing, and
normalization of the 8-bit canvas by 255. -/
def create_block_letter_s (M : PILOracle) (height width : ℕ) (letter : String)
    (font_size_ratio : ℚ) : Except String (List (List ℚ)) :=
  if height = 0 ∨ width = 0 then
    .error "height and width must be positive integers"
  else if letter = "" then
    .error "letter must be a non-empty string"
  else if font_size_ratio ≤ 0 ∨ 1 < font_size_ratio then
    .error "font_size_ratio must be between 0.0 and 1.0"
  else
    let font_size := max 1 (pyTrunc ((min height width : ℕ) * font_size_ratio)).toNat
    let max_width := max 1 (pyTrunc ((width : ℚ) * font_size_ratio)).toNat
    let max_height := max 1 (pyTrunc ((height : ℚ) * font_size_ratio)).toNat
    let fs := shrinkFont (fun n => M.bboxOf n letter) max_width max_height font_size
    let bb := M.bboxOf fs letter
    let text_w := bb.2.2.1 - bb.1
    let text_h := bb.2.2.2 - bb.2.1
    let x := ((width : ℤ) - text_w) / 2 - bb.1
    let y := ((height : ℤ) - text_h) / 2 - bb.2.1
    let canvas := M.rendered width height (x, y) letter fs
    .ok (canvas.map (fun row => row.map (fun (v : ℕ) => (v : ℚ) / 255)))

/-! ### Stippling core, modelled from the specification

`src/step2_create_stipple.py` delegates to `importance_map.compute_importance`
and `stippling_functions.void_and_cluster`, two modules of this repository
that are not among the sources; they are modelled here from §4.1 and §4.2 of
the specification.  Two pieces of the spec's description are transcendental
or random and enter the model as explicit parameters, quantified over in
every theorem: the Gaussian-shaped repulsion kernel (an `exp`, abstracted as
`kernel`, a function of the squared pixel distance) and the per-iteration
exploration noise source (`rng`, which §9 requires to be threaded explicitly
anyway). -/

/-- Modelled from the spec (§4.1, `compute_importance` is missing from the
sources): baseline weight 1.0, suppressed toward `1 - extreme_downweight`
below `extreme_threshold_low` and above `extreme_threshold_high`, with the
piecewise-linear monotone transition of width `extreme_sigma` that §9 leaves
as an implementation choice. -/
def importanceAt (dw lo hi sig tone : ℚ) : ℚ :=
  let amount :=
    if tone < lo then min 1 ((lo - tone) / sig)
    else if hi < tone then min 1 ((tone - hi) / sig)
    else 0
  1 - dw * amount

/-- Modelled from the spec (§4.1): the importance map is the per-pixel
`importanceAt`, after fail-fast validation of the image and the four
extreme-tone parameters. -/
def compute_importance (gray : List (List ℚ)) (dw lo hi sig : ℚ) :
    Except String (List (List ℚ)) :=
  if gray.length = 0 ∨ (gray.headD []).length = 0 then
    .error "ShapeError: empty image"
  else if ¬ (lo < hi) ∨ ¬ (0 ≤ lo ∧ lo ≤ 1) ∨ ¬ (0 ≤ hi ∧ hi ≤ 1) ∨
      ¬ (0 ≤ dw ∧ dw ≤ 1) ∨ sig ≤ 0 then
    .error "ParameterError: invalid extreme-tone parameters"
  else
    .ok (gray.map (·.map (importanceAt dw lo hi sig)))

/-- Squared Euclidean distance between flat pixel indices `i` and `j` of a
row-major grid of width `w`. -/
def dist2 (w i j : ℕ) : ℕ :=
  Nat.dist (i / w) (j / w) ^ 2 + Nat.dist (i % w) (j % w) ^ 2

/-- Modelled from the spec (§4.2): the global-maximum scan over the energy
field, restricted to still-unplaced cells (`pattern` value 1), with ties
broken toward the smaller row-major index.  Input is the row-major list of
`(pattern value, energy)` pairs; output the chosen flat index and energy. -/
def pickBest : List (ℚ × ℚ) → Option (ℕ × ℚ)
  | [] => none
  | pe :: rest =>
    match pickBest rest with
    | none => if pe.1 = 1 then some (0, pe.2) else none
    | some jf =>
      if pe.1 = 1 then
        if pe.2 < jf.2 then some (jf.1 + 1, jf.2) else some (0, pe.2)
      else some (jf.1 + 1, jf.2)

/-- Working state of the void-and-cluster placer: the row-major stipple
pattern, the energy field, and the samples emitted so far. -/
structure VacState where
  pattern : List ℚ
  energy : List ℚ
  samples : List (ℕ × ℕ × ℚ)
deriving DecidableEq, Repr

/-- Modelled from the spec (§4.2): one placement step.  Fresh exploration
noise scaled by `noise_scale_factor` is added to the energy field, the
highest-energy unplaced cell is picked (row-major tie-break), its pattern
cell becomes 0.0, a `(row, column, intensity)` sample is emitted with the
source tone as intensity, and the energy field is suppressed additively by
the repulsion kernel around the pick. -/
def vacStep (w : ℕ) (grayFlat : List ℚ) (kernel : ℕ → ℚ) (nsf : ℚ)
    (rng : ℕ → ℕ → ℚ) (it : ℕ) (st : VacState) : VacState :=
  let en := List.zipWith (· + ·) st.energy
    ((List.range st.energy.length).map (fun idx => nsf * rng it idx))
  match pickBest (st.pattern.zip en) with
  | none => st
  | some pick =>
    { pattern := st.pattern.set pick.1 0
      energy := en.mapIdx (fun j e => e - kernel (dist2 w pick.1 j))
      samples := st.samples ++ [(pick.1 / w, pick.1 % w, grayFlat.getD pick.1 0)] }

/-- Modelled from the spec (§4.2, `void_and_cluster` is missing from the
sources): fail-fast validation, an energy field initialized to the content
term `content_bias × (1 − tone) × importance`, and
`round(percentage × H × W)` greedy placement steps. -/
def void_and_cluster (gray importance_img : List (List ℚ))
    (percentage sigma content_bias noise_scale_factor : ℚ)
    (kernel : ℕ → ℚ) (rng : ℕ → ℕ → ℚ) :
    Except String (List (List ℚ) × List (ℕ × ℕ × ℚ)) :=
  if gray.map List.length ≠ importance_img.map List.length then
    .error "ShapeError: image and importance map shapes differ"
  else if ¬ (0 < percentage ∧ percentage ≤ 1) ∨ sigma ≤ 0 ∨
      ¬ (0 ≤ content_bias ∧ content_bias ≤ 1) ∨ noise_scale_factor < 0 then
    .error "ParameterError: invalid stippling parameters"
  else
    let h := gray.length
    let w := (gray.headD []).length
    let grayFlat := gray.flatten
    let impFlat := importance_img.flatten
    let target := (round (percentage * ((h * w : ℕ) : ℚ))).toNat
    let init : VacState :=
      { pattern := List.replicate grayFlat.length 1
        energy := List.zipWith (fun tone imp => content_bias * (1 - tone) * imp)
          grayFlat impFlat
        samples := [] }
    let final := (List.range target).foldl
      (fun st it => vacStep w grayFlat kernel noise_scale_factor rng it st) init
    .ok ((List.range h).map (fun r => (final.pattern.drop (r * w)).take w),
      final.samples)

/-- Modelled from the spec: `create_stipple` from
`src/step2_create_stipple.py` composes the importance-map builder with the
void-and-cluster placer, exactly as the source does. -/
def create_stipple (gray_img : List (List ℚ))
    (percentage sigma content_bias noise_scale_factor extreme_downweight
      extreme_threshold_low extreme_threshold_high extreme_sigma : ℚ)
    (kernel : ℕ → ℚ) (rng : ℕ → ℕ → ℚ) :
    Except String (List (List ℚ) × List (ℕ × ℕ × ℚ)) := do
  let importance_map ← compute_importance gray_img extreme_downweight
    extreme_threshold_low extreme_threshold_high extreme_sigma
  void_and_cluster gray_img importance_map percentage sigma content_bias
    noise_scale_factor kernel rng

/-- Number of 0.0 cells of a 2D stipple pattern. -/
def countZeros2 (pat : List (List ℚ)) : ℕ :=
  (pat.map (List.count 0)).sum

/-- Index of the grid section containing coordinate `y` along an axis of
length `extent` divided into `parts` sections: `y / (extent / parts)`,
except that the last section absorbs the remainder up to the border. -/
def secIdx (extent parts y : ℕ) : ℕ :=
  min (y / (extent / parts)) (parts - 1)

/-! ## Theorems -/

/-! ### Selective masking (`create_masked_stipple`) -/

theorem clip01_of_mem_Icc {v : ℚ} (h0 : 0 ≤ v) (h1 : v ≤ 1) : clip01 v = v := by
  unfold clip01
  rw [max_eq_left h0, min_eq_left h1]

theorem clip01_idem (v : ℚ) : clip01 (clip01 v) = clip01 v := by
  apply clip01_of_mem_Icc
  · simp [clip01]
  · simp [clip01]

theorem create_masked_stipple_ok (s m : NDArr) (t : ℚ)
    (hsh : s.shape = m.shape) (ht0 : 0 ≤ t) (ht1 : t ≤ 1) :
    create_masked_stipple s m t =
      .ok ⟨s.h, s.w, List.zipWith (fun srow mrow =>
          List.zipWith (fun a b => maskCell t a b) srow mrow)
        s.data m.data⟩ := by
  unfold create_masked_stipple
  simp [hsh, ht0, ht1]

/-- **C2** (amended): for well-formed arrays of equal shape and a threshold
in [0, 1], the returned array is 1.0 at every cell where the mask is below
the threshold, and the pattern's value clipped to [0, 1] at every other cell
(so exactly the original value whenever the pattern already lies in [0, 1]).
-/
theorem masked_stipple_cell_values (s m : NDArr) (t : ℚ) (r : NDArr)
    (hs : s.wf) (hm : m.wf) (hsh : s.shape = m.shape)
    (ht0 : 0 ≤ t) (ht1 : t ≤ 1)
    (hr : create_masked_stipple s m t = Except.ok r)
    (i j : ℕ) (hi : i < s.h) (hj : j < s.w) :
    r.cell i j = if m.cell i j < t then 1 else clip01 (s.cell i j) := by
  rw [create_masked_stipple_ok s m t hsh ht0 ht1] at hr
  obtain rfl := (Except.ok.injEq _ _).mp hr.symm
  have hhm : m.h = s.h := (congrArg Prod.fst hsh).symm
  have hwm : m.w = s.w := (congrArg Prod.snd hsh).symm
  have hls : s.data.length = s.h := hs.1
  have hlm : m.data.length = s.h := by rw [hm.1, hhm]
  unfold NDArr.cell
  have hi' : i < (List.zipWith (fun srow mrow =>
      List.zipWith (fun a b => maskCell t a b) srow mrow) s.data m.data).length := by
    rw [List.length_zipWith, hls, hlm]; simpa using hi
  have his : i < s.data.length := by rwa [hls]
  have him : i < m.data.length := by rwa [hlm]
  rw [List.getD_eq_getElem _ _ hi', List.getElem_zipWith]
  have hrs : s.data[i].length = s.w := hs.2 _ (s.data.getElem_mem his)
  have hrm : m.data[i].length = s.w := by
    rw [hm.2 _ (m.data.getElem_mem him), hwm]
  have hj' : j < (List.zipWith (fun a b => maskCell t a b)
      s.data[i] m.data[i]).length := by
    rw [List.length_zipWith, hrs, hrm]; simpa using hj
  have hjs : j < s.data[i].length := by rwa [hrs]
  have hjm : j < m.data[i].length := by rwa [hrm]
  rw [List.getD_eq_getElem _ _ hj', List.getElem_zipWith,
    List.getD_eq_getElem _ _ his, List.getD_eq_getElem _ _ him,
    List.getD_eq_getElem _ _ hjs, List.getD_eq_getElem _ _ hjm]
  unfold maskCell
  split
  · exact clip01_of_mem_Icc (by norm_num) (by norm_num)
  · rfl

/-- **C2** counterexample to the claim as stated: at a cell where the mask
(1.0) is not below the threshold (1.0), the returned value is the clipped
value 1.0, not the original pattern value 2.0. -/
theorem masked_stipple_cell_values_cex :
    create_masked_stipple ⟨1, 1, [[2]]⟩ ⟨1, 1, [[1]]⟩ 1 =
      Except.ok ⟨1, 1, [[1]]⟩ ∧
    ¬ ((1 : ℚ) < 1) ∧ (1 : ℚ) ≠ 2 := by
  exact ⟨by decide, by decide, by decide⟩

/-- **C2** witness. -/
theorem masked_stipple_cell_values_witness :
    (⟨1, 1, [[1]]⟩ : NDArr).cell 0 0 =
      if (⟨1, 1, [[0]]⟩ : NDArr).cell 0 0 < (1 : ℚ) then 1
      else clip01 ((⟨1, 1, [[2]]⟩ : NDArr).cell 0 0) :=
  masked_stipple_cell_values ⟨1, 1, [[2]]⟩ ⟨1, 1, [[0]]⟩ 1 ⟨1, 1, [[1]]⟩
    (by decide) (by decide) rfl (by decide) (by decide) (by decide) 0 0
    (by decide) (by decide)

theorem zipWith_replicate_right {α β γ : Type} (f : α → β → γ) (c : β)
    (l : List α) (n : ℕ) (hn : l.length ≤ n) :
    List.zipWith f l (List.replicate n c) = l.map (fun v => f v c) := by
  induction l generalizing n with
  | nil => simp
  | cons a as ih =>
    cases n with
    | zero => simp at hn
    | succ k =>
      simp only [List.replicate_succ, List.zipWith_cons_cons, List.map_cons]
      rw [ih k (by simpa using hn)]

/-- **C4** (amended): for a well-formed pattern and a threshold in [0, 1],
masking against an all-1.0 mask returns the pattern unchanged whenever the
pattern's values lie in [0, 1], and masking against an all-0.0 mask at any
such threshold above 0 returns the all-1.0 pattern of the same shape (no
value restriction needed there, every cell being overwritten).  (The
claim's unrestricted thresholds and patterns fail: thresholds outside
[0, 1] raise, and out-of-range pattern values are clipped; see the
counterexample.) -/
theorem masked_stipple_const_masks (s : NDArr) (t : ℚ) (hwf : s.wf)
    (ht0 : 0 ≤ t) (ht1 : t ≤ 1) :
    ((∀ row ∈ s.data, ∀ v ∈ row, 0 ≤ v ∧ v ≤ 1) →
      create_masked_stipple s (constArr s.h s.w 1) t = Except.ok s) ∧
    (0 < t →
      create_masked_stipple s (constArr s.h s.w 0) t =
        Except.ok (constArr s.h s.w 1)) := by
  constructor
  · intro hvals
    rw [create_masked_stipple_ok s (constArr s.h s.w 1) t rfl ht0 ht1]
    congr 1
    have hdata : List.zipWith (fun srow mrow =>
        List.zipWith (fun a b => maskCell t a b) srow mrow)
        s.data (constArr s.h s.w 1).data = s.data := by
      show List.zipWith _ s.data (List.replicate s.h (List.replicate s.w 1)) = _
      rw [zipWith_replicate_right _ _ _ _ (le_of_eq hwf.1)]
      have hrow : ∀ row ∈ s.data,
          List.zipWith (fun a b => maskCell t a b) row (List.replicate s.w 1) =
            row := by
        intro row hrow
        rw [zipWith_replicate_right _ _ _ _ (le_of_eq (hwf.2 row hrow))]
        have hcell : ∀ v ∈ row, maskCell t v 1 = v := by
          intro v hv
          have hv01 := hvals row hrow v hv
          unfold maskCell
          rw [if_neg (by exact not_lt.mpr ht1)]
          exact clip01_of_mem_Icc hv01.1 hv01.2
        calc row.map (fun v => maskCell t v 1) = row.map id :=
              List.map_congr_left (fun v hv => hcell v hv)
          _ = row := List.map_id row
      calc s.data.map (fun srow =>
              List.zipWith (fun a b => maskCell t a b) srow (List.replicate s.w 1))
            = s.data.map id := List.map_congr_left (fun r hr => hrow r hr)
        _ = s.data := List.map_id s.data
    rw [hdata]
  · intro htpos
    rw [create_masked_stipple_ok s (constArr s.h s.w 0) t rfl ht0 ht1]
    congr 1
    show (⟨s.h, s.w, _⟩ : NDArr) = constArr s.h s.w 1
    unfold constArr
    congr 1
    show List.zipWith _ s.data (List.replicate s.h (List.replicate s.w 0)) = _
    rw [zipWith_replicate_right _ _ _ _ (le_of_eq hwf.1)]
    have hrow : ∀ row ∈ s.data,
        List.zipWith (fun a b => maskCell t a b) row (List.replicate s.w 0) =
          List.replicate s.w (1 : ℚ) := by
      intro row hrow
      rw [zipWith_replicate_right _ _ _ _ (le_of_eq (hwf.2 row hrow))]
      have : ∀ v, maskCell t v 0 = (1 : ℚ) := by
        intro v
        unfold maskCell
        rw [if_pos htpos]
        exact clip01_of_mem_Icc (by norm_num) (by norm_num)
      calc row.map (fun v => maskCell t v 0) = row.map (fun _ => (1 : ℚ)) := by
            exact List.map_congr_left (fun v _ => this v)
        _ = List.replicate row.length 1 := List.map_const row 1
        _ = List.replicate s.w 1 := by rw [hwf.2 row hrow]
    calc s.data.map (fun srow =>
            List.zipWith (fun a b => maskCell t a b) srow (List.replicate s.w 0))
          = s.data.map (fun _ => List.replicate s.w (1 : ℚ)) :=
            List.map_congr_left hrow
      _ = List.replicate s.data.length (List.replicate s.w 1) :=
            List.map_const s.data _
      _ = List.replicate s.h (List.replicate s.w 1) := by rw [hwf.1]

/-- **C4** counterexample to the claim as stated: an all-1.0 mask at the
threshold -1 (which is ≤ 1.0) raises instead of returning the pattern
unchanged, and an all-1.0 mask at threshold 1 turns the out-of-range pattern
value 2.0 into 1.0. -/
theorem masked_stipple_const_masks_cex :
    create_masked_stipple ⟨1, 1, [[0]]⟩ (constArr 1 1 1) (-1) =
      Except.error "threshold must be within [0, 1]" ∧
    create_masked_stipple ⟨1, 1, [[2]]⟩ (constArr 1 1 1) 1 =
      Except.ok ⟨1, 1, [[1]]⟩ ∧
    (⟨1, 1, [[1]]⟩ : NDArr) ≠ ⟨1, 1, [[2]]⟩ := by
  exact ⟨by decide, by decide, by decide⟩

/-- **C4** witness. -/
theorem masked_stipple_const_masks_witness :
    (⟨2, 1, [[0], [1]]⟩ : NDArr).wf ∧ (0 : ℚ) ≤ 1 ∧ (1 : ℚ) ≤ 1 ∧
    (((∀ row ∈ (⟨2, 1, [[0], [1]]⟩ : NDArr).data, ∀ v ∈ row,
        0 ≤ v ∧ v ≤ 1) →
      create_masked_stipple ⟨2, 1, [[0], [1]]⟩ (constArr 2 1 1) 1 =
        Except.ok ⟨2, 1, [[0], [1]]⟩) ∧
    (0 < (1 : ℚ) →
      create_masked_stipple ⟨2, 1, [[0], [1]]⟩ (constArr 2 1 0) 1 =
        Except.ok (constArr 2 1 1))) :=
  ⟨by decide, by decide, by decide,
    masked_stipple_const_masks ⟨2, 1, [[0], [1]]⟩ 1 (by decide) (by decide)
      (by decide)⟩

theorem zipWith_self_idem {α β : Type} (f : α → β → α)
    (hf : ∀ a b, f (f a b) b = f a b) :
    ∀ (l₁ : List α) (l₂ : List β),
      List.zipWith f (List.zipWith f l₁ l₂) l₂ = List.zipWith f l₁ l₂
  | [], _ => by simp
  | _ :: _, [] => by simp
  | a :: as, b :: bs => by
    simp only [List.zipWith_cons_cons]
    rw [hf a b, zipWith_self_idem f hf as bs]

theorem maskCell_idem (t s m : ℚ) : maskCell t (maskCell t s m) m = maskCell t s m := by
  unfold maskCell
  by_cases hm : m < t
  · rw [if_pos hm, if_pos hm]
  · rw [if_neg hm, if_neg hm, clip01_idem]

/-- **C5**: `create_masked_stipple` is idempotent — applying it again with
the same mask and threshold to a successful result returns that result
unchanged. -/
theorem masked_stipple_idempotent (s m : NDArr) (t : ℚ) (r : NDArr)
    (hsh : s.shape = m.shape) (ht0 : 0 ≤ t) (ht1 : t ≤ 1)
    (hr : create_masked_stipple s m t = Except.ok r) :
    create_masked_stipple r m t = Except.ok r := by
  rw [create_masked_stipple_ok s m t hsh ht0 ht1] at hr
  obtain rfl := (Except.ok.injEq _ _).mp hr.symm
  rw [create_masked_stipple_ok
    (NDArr.mk s.h s.w (List.zipWith (fun srow mrow =>
      List.zipWith (fun a b => maskCell t a b) srow mrow) s.data m.data))
    m t hsh ht0 ht1]
  congr 2
  exact zipWith_self_idem _
    (fun a b => zipWith_self_idem _ (fun a b => maskCell_idem t a b) a b)
    s.data m.data

/-- **C5** witness. -/
theorem masked_stipple_idempotent_witness :
    create_masked_stipple ⟨1, 2, [[1, 0]]⟩ ⟨1, 2, [[0, 1]]⟩ 1 =
      Except.ok ⟨1, 2, [[1, 0]]⟩ :=
  masked_stipple_idempotent ⟨1, 2, [[0, 0]]⟩ ⟨1, 2, [[0, 1]]⟩ 1 ⟨1, 2, [[1, 0]]⟩
    rfl (by decide) (by decide) (by decide)

/-- **C6**: when the pattern and mask shapes differ, `create_masked_stipple`
fails with the shape error; the `Except` result carries no partial array. -/
theorem masked_stipple_shape_error (s m : NDArr) (t : ℚ)
    (hne : s.shape ≠ m.shape) :
    create_masked_stipple s m t =
      Except.error "stipple_img and mask_img must have the same shape" := by
  unfold create_masked_stipple
  rw [if_pos hne]

/-- **C6** witness. -/
theorem masked_stipple_shape_error_witness :
    create_masked_stipple ⟨1, 1, [[0]]⟩ ⟨1, 2, [[0, 0]]⟩ 1 =
      Except.error "stipple_img and mask_img must have the same shape" :=
  masked_stipple_shape_error ⟨1, 1, [[0]]⟩ ⟨1, 2, [[0, 0]]⟩ 1 (by decide)

/-- **C10**: for arrays of matching shape, `create_masked_stipple` raises
exactly when the threshold lies outside [0, 1], and returns a result for
every threshold in [0, 1]. -/
theorem masked_stipple_threshold_error_iff (s m : NDArr) (t : ℚ)
    (hsh : s.shape = m.shape) :
    ((∃ e, create_masked_stipple s m t = Except.error e) ↔ (t < 0 ∨ 1 < t)) ∧
    (0 ≤ t → t ≤ 1 → ∃ r, create_masked_stipple s m t = Except.ok r) := by
  constructor
  · by_cases hc : 0 ≤ t ∧ t ≤ 1
    · rw [create_masked_stipple_ok s m t hsh hc.1 hc.2]
      constructor
      · rintro ⟨e, he⟩
        simp at he
      · intro hx
        rcases hx with hx | hx
        · exact absurd hc.1 (not_le.mpr hx)
        · exact absurd hc.2 (not_le.mpr hx)
    · unfold create_masked_stipple
      rw [if_neg (not_not_intro hsh), if_pos hc]
      constructor
      · intro _
        rcases not_and_or.mp hc with hx | hx
        · exact Or.inl (not_le.mp hx)
        · exact Or.inr (not_le.mp hx)
      · intro _
        exact ⟨_, rfl⟩
  · intro ht0 ht1
    exact ⟨_, create_masked_stipple_ok s m t hsh ht0 ht1⟩

/-- **C10** witness. -/
theorem masked_stipple_threshold_error_iff_witness :
    ((∃ e, create_masked_stipple ⟨1, 1, [[0]]⟩ ⟨1, 1, [[1]]⟩ 2 =
        Except.error e) ↔ ((2 : ℚ) < 0 ∨ (1 : ℚ) < 2)) ∧
    (0 ≤ (2 : ℚ) → (2 : ℚ) ≤ 1 →
      ∃ r, create_masked_stipple ⟨1, 1, [[0]]⟩ ⟨1, 1, [[1]]⟩ 2 = Except.ok r) :=
  masked_stipple_threshold_error_iff ⟨1, 1, [[0]]⟩ ⟨1, 1, [[1]]⟩ 2 rfl

theorem hget_append_lt (st : Heap) (x : List (List ℚ)) (r : ℕ)
    (hr : r < st.length) : Heap.get (st ++ [x]) r = st.get r := by
  unfold Heap.get
  rw [List.getD_eq_getElem _ _ (by simp; omega),
    List.getElem_append_left hr, List.getD_eq_getElem _ _ hr]

theorem hget_put_ne (st : Heap) (i r : ℕ) (v : List (List ℚ)) (hne : i ≠ r)
    (hr : r < st.length) : (st.put i v).get r = st.get r := by
  unfold Heap.get Heap.put
  rw [List.getD_eq_getElem _ _ (by simpa using hr),
    List.getElem_set_ne hne, List.getD_eq_getElem _ _ hr]

/-- **C7**: `create_masked_stipple` never mutates its arguments.  In the
store-passing embedding that tracks every numpy buffer operation of the
source (aliasing `asarray`, the `copy`, the in-place boolean-mask
assignment, the fresh `clip`), a successful call leaves the pattern and mask
buffers exactly as they were, and returns a freshly allocated buffer
distinct from both inputs. -/
theorem masked_stipple_no_mutation (st : Heap) (rs rm : ℕ) (t : ℚ)
    (hrs : rs < st.length) (hrm : rm < st.length)
    (st' : Heap) (rout : ℕ)
    (hok : create_masked_stipple_heap st rs rm t = Except.ok (st', rout)) :
    st'.get rs = st.get rs ∧ st'.get rm = st.get rm ∧ rout ≠ rs ∧ rout ≠ rm := by
  unfold create_masked_stipple_heap at hok
  by_cases h1 : shape2 (st.get rs) ≠ shape2 (st.get rm)
  · rw [if_pos h1] at hok
    simp at hok
  · rw [if_neg h1] at hok
    by_cases h2 : ¬ (0 ≤ t ∧ t ≤ 1)
    · rw [if_pos h2] at hok
      simp at hok
    · rw [if_neg h2] at hok
      simp only [Heap.alloc] at hok
      obtain ⟨hst, hrout⟩ := Prod.mk.injEq .. ▸ (Except.ok.inj hok)
      subst hst hrout
      have hlen1 : (st ++ [st.get rs]).length = st.length + 1 := by simp
      have hput : ∀ v, ((st ++ [st.get rs]).put st.length v).length =
          st.length + 1 := by
        intro v
        unfold Heap.put
        simp
      refine ⟨?_, ?_, ?_, ?_⟩
      · rw [hget_append_lt _ _ _ (by rw [hput]; omega),
          hget_put_ne _ _ _ _ (by omega) (by rw [hlen1]; omega),
          hget_append_lt _ _ _ hrs]
      · rw [hget_append_lt _ _ _ (by rw [hput]; omega),
          hget_put_ne _ _ _ _ (by omega) (by rw [hlen1]; omega),
          hget_append_lt _ _ _ hrm]
      · rw [hput]
        omega
      · rw [hput]
        omega

/-- **C7** witness. -/
theorem masked_stipple_no_mutation_witness :
    0 < ([[[0]], [[1]]] : Heap).length ∧ 1 < ([[[0]], [[1]]] : Heap).length ∧
    (Heap.get [[[0]], [[1]], [[0]], [[0]]] 0 = Heap.get [[[0]], [[1]]] 0 ∧
      Heap.get [[[0]], [[1]], [[0]], [[0]]] 1 = Heap.get [[[0]], [[1]]] 1 ∧
      3 ≠ 0 ∧ 3 ≠ 1) :=
  ⟨by decide, by decide,
    masked_stipple_no_mutation [[[0]], [[1]]] 0 1 1 (by decide) (by decide)
      [[[0]], [[1]], [[0]], [[0]]] 3 (by decide)⟩

/-! ### Tonal grid analyzer -/

theorem sum_map_range {M : Type} [AddCommMonoid M] (f : ℕ → M) (n : ℕ) :
    ((List.range n).map f).sum = ∑ i ∈ Finset.range n, f i := by
  induction n with
  | zero => simp
  | succ k ih =>
    rw [List.range_succ, List.map_append, List.sum_append,
      Finset.sum_range_succ, ih]
    simp

theorem sum_map_drop_take {α M : Type} [AddCommMonoid M] (f : α → M) (d : α)
    (l : List α) (a b : ℕ) (hab : a + b ≤ l.length) :
    (((l.drop a).take b).map f).sum = ∑ k ∈ Finset.range b, f (l.getD (a + k) d) := by
  induction b with
  | zero => simp
  | succ k ih =>
    have hk : a + k < l.length := by omega
    have hk' : k < (l.drop a).length := by
      rw [List.length_drop]; omega
    rw [List.take_succ, List.map_append, List.sum_append,
      Finset.sum_range_succ, ih (by omega)]
    rw [List.getElem?_eq_getElem hk']
    simp [List.getElem_drop, List.getElem?_eq_getElem hk]

theorem getD_range_map {α : Type} (f : ℕ → α) (d : α) (n i : ℕ) (hi : i < n) :
    ((List.range n).map f).getD i d = f i := by
  have hlen : i < ((List.range n).map f).length := by simpa using hi
  rw [List.getD_eq_getElem _ _ hlen, List.getElem_map, List.getElem_range]

theorem gridAt_averageTones (gray : NDArr) (rows cols i j : ℕ)
    (hi : i < rows) (hj : j < cols) :
    gridAt (averageTones gray rows cols) i j =
      npMean (slice2 gray.data (secStart (gray.h / rows) i)
        (secEnd gray.h (gray.h / rows) rows i)
        (secStart (gray.w / cols) j)
        (secEnd gray.w (gray.w / cols) cols j)) := by
  unfold gridAt averageTones
  rw [getD_range_map _ _ _ _ hi, getD_range_map _ _ _ _ hj]

theorem foldl_min_le_init (bs : List ℚ) (a : ℚ) : bs.foldl min a ≤ a := by
  induction bs generalizing a with
  | nil => exact le_refl a
  | cons b bs ih =>
    calc (b :: bs).foldl min a = bs.foldl min (min a b) := rfl
      _ ≤ min a b := ih (min a b)
      _ ≤ a := min_le_left _ _

theorem foldl_min_le_mem (bs : List ℚ) (a x : ℚ) (hx : x ∈ bs) :
    bs.foldl min a ≤ x := by
  induction bs generalizing a with
  | nil => simp at hx
  | cons b bs ih =>
    rcases List.mem_cons.mp hx with rfl | hbs
    · calc (x :: bs).foldl min a = bs.foldl min (min a x) := rfl
        _ ≤ min a x := foldl_min_le_init bs _
        _ ≤ x := min_le_right _ _
    · exact ih (min a b) hbs

theorem npMin_le (l : List ℚ) (x : ℚ) (hx : x ∈ l) : npMin l ≤ x := by
  match l with
  | a :: xs =>
    show xs.foldl min a ≤ x
    rcases List.mem_cons.mp hx with rfl | hxs
    · exact foldl_min_le_init xs x
    · exact foldl_min_le_mem xs a x hxs

theorem foldl_min_mem (bs : List ℚ) (a : ℚ) : bs.foldl min a ∈ a :: bs := by
  induction bs generalizing a with
  | nil => simp
  | cons b bs ih =>
    have h1 : (b :: bs).foldl min a = bs.foldl min (min a b) := rfl
    rw [h1]
    rcases List.mem_cons.mp (ih (min a b)) with h | h
    · rcases min_cases a b with ⟨he, _⟩ | ⟨he, _⟩
      · rw [h, he]
        exact List.mem_cons_self _ _
      · rw [h, he]
        exact List.mem_cons_of_mem _ (List.mem_cons_self _ _)
    · exact List.mem_cons_of_mem _ (List.mem_cons_of_mem _ h)

theorem npMin_mem (l : List ℚ) (hl : l ≠ []) : npMin l ∈ l := by
  match l with
  | a :: xs => exact foldl_min_mem xs a

theorem foldl_max_init_le (bs : List ℚ) (a : ℚ) : a ≤ bs.foldl max a := by
  induction bs generalizing a with
  | nil => exact le_refl a
  | cons b bs ih =>
    calc a ≤ max a b := le_max_left _ _
      _ ≤ bs.foldl max (max a b) := ih (max a b)
      _ = (b :: bs).foldl max a := rfl

theorem foldl_max_mem_le (bs : List ℚ) (a x : ℚ) (hx : x ∈ bs) :
    x ≤ bs.foldl max a := by
  induction bs generalizing a with
  | nil => simp at hx
  | cons b bs ih =>
    rcases List.mem_cons.mp hx with rfl | hbs
    · calc x ≤ max a x := le_max_right _ _
        _ ≤ bs.foldl max (max a x) := foldl_max_init_le bs _
        _ = (x :: bs).foldl max a := rfl
    · exact ih (max a b) hbs

theorem npMax_le (l : List ℚ) (x : ℚ) (hx : x ∈ l) : x ≤ npMax l := by
  match l with
  | a :: xs =>
    show x ≤ xs.foldl max a
    rcases List.mem_cons.mp hx with rfl | hxs
    · exact foldl_max_init_le xs x
    · exact foldl_max_mem_le xs a x hxs

theorem foldl_max_mem (bs : List ℚ) (a : ℚ) : bs.foldl max a ∈ a :: bs := by
  induction bs generalizing a with
  | nil => simp
  | cons b bs ih =>
    have h1 : (b :: bs).foldl max a = bs.foldl max (max a b) := rfl
    rw [h1]
    rcases List.mem_cons.mp (ih (max a b)) with h | h
    · rcases max_cases a b with ⟨he, _⟩ | ⟨he, _⟩
      · rw [h, he]
        exact List.mem_cons_self _ _
      · rw [h, he]
        exact List.mem_cons_of_mem _ (List.mem_cons_self _ _)
    · exact List.mem_cons_of_mem _ (List.mem_cons_of_mem _ h)

theorem npMax_mem (l : List ℚ) (hl : l ≠ []) : npMax l ∈ l := by
  match l with
  | a :: xs => exact foldl_max_mem xs a

theorem npMean_grid (g : ℕ → ℕ → ℚ) (R C : ℕ) :
    npMean ((List.range R).map (fun i => (List.range C).map (g i))) =
      (∑ i ∈ Finset.range R, ∑ j ∈ Finset.range C, g i j) / ((R * C : ℕ) : ℚ) := by
  unfold npMean
  rw [List.map_map, List.map_map, sum_map_range, sum_map_range]
  have hnum : ∀ i ∈ Finset.range R,
      (List.sum ∘ fun i => (List.range C).map (g i)) i =
        ∑ j ∈ Finset.range C, g i j :=
    fun i _ => sum_map_range (g i) C
  have hden : ∀ i ∈ Finset.range R,
      (List.length ∘ fun i => (List.range C).map (g i)) i = C := by
    intro i _
    simp
  rw [Finset.sum_congr rfl hnum, Finset.sum_congr rfl hden]
  have hRC : (∑ _i ∈ Finset.range R, C) = R * C := by
    simp [Finset.sum_const, mul_comm]
  rw [hRC]

theorem mem_grid_flatten (g : ℕ → ℕ → ℚ) (R C i j : ℕ) (hi : i < R)
    (hj : j < C) :
    g i j ∈ ((List.range R).map (fun i => (List.range C).map (g i))).flatten := by
  rw [List.mem_flatten]
  refine ⟨(List.range C).map (g i), ?_, ?_⟩
  · exact List.mem_map.mpr ⟨i, List.mem_range.mpr hi, rfl⟩
  · exact List.mem_map.mpr ⟨j, List.mem_range.mpr hj, rfl⟩

theorem grid_flatten_mem (g : ℕ → ℕ → ℚ) (R C : ℕ) (x : ℚ)
    (hx : x ∈ ((List.range R).map (fun i => (List.range C).map (g i))).flatten) :
    ∃ i < R, ∃ j < C, g i j = x := by
  rw [List.mem_flatten] at hx
  obtain ⟨row, hrow, hxrow⟩ := hx
  obtain ⟨i, hi, rfl⟩ := List.mem_map.mp hrow
  obtain ⟨j, hj, rfl⟩ := List.mem_map.mp hxrow
  exact ⟨i, List.mem_range.mp hi, j, List.mem_range.mp hj, rfl⟩

theorem create_tonal_stats_eq (gray : NDArr) (rows cols : ℕ) (full : Bool) :
    (create_tonal gray rows cols full).2.2 =
      ⟨npMean (averageTones gray rows cols),
        npStdSq (averageTones gray rows cols),
        npMin (averageTones gray rows cols).flatten,
        npMax (averageTones gray rows cols).flatten,
        (List.range rows).flatMap (fun i => (List.range cols).map (fun j =>
          (i, j, ((averageTones gray rows cols).getD i []).getD j 0)))⟩ := rfl

/-- **C3** (amended): for a well-formed image and a grid with
`0 < rows ≤ H` and `0 < cols ≤ W` (the claim's original domain, under which
every section is non-empty and `npMean` is faithful to `np.mean`), the
statistics dictionary of `create_tonal` holds the mean, squared standard
deviation, minimum and maximum taken over the grid of per-section average
tones (not over the raw pixels): the mean and squared std are the
corresponding sums over the `rows × cols` grid entries divided by
`rows·cols`, and min/max are attained grid entries bounding every grid
entry. -/
theorem tonal_stats_over_averages (gray : NDArr) (rows cols : ℕ) (full : Bool)
    (_hwf : gray.wf) (hr : 0 < rows) (_hrh : rows ≤ gray.h) (hc : 0 < cols)
    (_hcw : cols ≤ gray.w) :
    ((create_tonal gray rows cols full).2.2.mean =
      (∑ i ∈ Finset.range rows, ∑ j ∈ Finset.range cols,
        gridAt (averageTones gray rows cols) i j) / ((rows * cols : ℕ) : ℚ)) ∧
    ((create_tonal gray rows cols full).2.2.stdSq =
      (∑ i ∈ Finset.range rows, ∑ j ∈ Finset.range cols,
        (gridAt (averageTones gray rows cols) i j -
          (create_tonal gray rows cols full).2.2.mean) ^ 2) /
        ((rows * cols : ℕ) : ℚ)) ∧
    (∀ i < rows, ∀ j < cols,
      (create_tonal gray rows cols full).2.2.min ≤
        gridAt (averageTones gray rows cols) i j ∧
      gridAt (averageTones gray rows cols) i j ≤
        (create_tonal gray rows cols full).2.2.max) ∧
    (∃ i < rows, ∃ j < cols, gridAt (averageTones gray rows cols) i j =
      (create_tonal gray rows cols full).2.2.min) ∧
    (∃ i < rows, ∃ j < cols, gridAt (averageTones gray rows cols) i j =
      (create_tonal gray rows cols full).2.2.max) := by
  rw [create_tonal_stats_eq]
  set f : ℕ → ℕ → ℚ := fun i j =>
    npMean (slice2 gray.data (secStart (gray.h / rows) i)
      (secEnd gray.h (gray.h / rows) rows i)
      (secStart (gray.w / cols) j)
      (secEnd gray.w (gray.w / cols) cols j)) with hf
  have hA : averageTones gray rows cols =
      (List.range rows).map (fun i => (List.range cols).map (f i)) := rfl
  have hgrid : ∀ i < rows, ∀ j < cols,
      gridAt (averageTones gray rows cols) i j = f i j := by
    intro i hi j hj
    unfold gridAt
    rw [hA, getD_range_map _ _ _ _ hi, getD_range_map _ _ _ _ hj]
  have hsum : ∀ (q : ℕ → ℕ → ℚ),
      (∀ i ∈ Finset.range rows, ∀ j ∈ Finset.range cols, q i j =
        gridAt (averageTones gray rows cols) i j) →
      ∑ i ∈ Finset.range rows, ∑ j ∈ Finset.range cols, q i j =
        ∑ i ∈ Finset.range rows, ∑ j ∈ Finset.range cols,
          gridAt (averageTones gray rows cols) i j := by
    intro q hq
    exact Finset.sum_congr rfl (fun i hi =>
      Finset.sum_congr rfl (fun j hj => hq i hi j hj))
  have hmean : npMean (averageTones gray rows cols) =
      (∑ i ∈ Finset.range rows, ∑ j ∈ Finset.range cols,
        gridAt (averageTones gray rows cols) i j) / ((rows * cols : ℕ) : ℚ) := by
    conv_lhs => rw [hA, npMean_grid]
    rw [hsum f (fun i hi j hj =>
      (hgrid i (Finset.mem_range.mp hi) j (Finset.mem_range.mp hj)).symm)]
  refine ⟨hmean, ?_, ?_, ?_, ?_⟩
  · show npStdSq (averageTones gray rows cols) = _
    unfold npStdSq
    have hB : (averageTones gray rows cols).map
        (·.map (fun x => (x - npMean (averageTones gray rows cols)) ^ 2)) =
        (List.range rows).map (fun i => (List.range cols).map (fun j =>
          (f i j - npMean (averageTones gray rows cols)) ^ 2)) := by
      conv_lhs => rw [hA]
      rw [List.map_map]
      refine List.map_congr_left (fun i _ => ?_)
      simp only [Function.comp_apply, List.map_map]
      rfl
    rw [hB, npMean_grid]
    congr 1
    refine Finset.sum_congr rfl (fun i hi => Finset.sum_congr rfl (fun j hj => ?_))
    rw [hgrid i (Finset.mem_range.mp hi) j (Finset.mem_range.mp hj), hmean]
  · intro i hi j hj
    rw [hgrid i hi j hj]
    constructor
    · exact npMin_le _ _ (hA ▸ mem_grid_flatten f rows cols i j hi hj)
    · exact npMax_le _ _ (hA ▸ mem_grid_flatten f rows cols i j hi hj)
  · have hne : (averageTones gray rows cols).flatten ≠ [] :=
      List.ne_nil_of_mem (hA ▸ mem_grid_flatten f rows cols 0 0 hr hc)
    obtain ⟨i, hi, j, hj, hij⟩ :=
      grid_flatten_mem f rows cols _ (hA ▸ npMin_mem _ hne)
    refine ⟨i, hi, j, hj, ?_⟩
    rw [hgrid i hi j hj, hij, hA]
  · have hne : (averageTones gray rows cols).flatten ≠ [] :=
      List.ne_nil_of_mem (hA ▸ mem_grid_flatten f rows cols 0 0 hr hc)
    obtain ⟨i, hi, j, hj, hij⟩ :=
      grid_flatten_mem f rows cols _ (hA ▸ npMax_mem _ hne)
    refine ⟨i, hi, j, hj, ?_⟩
    rw [hgrid i hi j hj, hij, hA]

/-- **C3** counterexample to the claim as stated: on the 1×2 image with
pixels 0 and 1 analyzed on a 1×1 grid, `stats['min']` is the minimum over
the section averages, 1/2, while the minimum over all pixel tones is 0. -/
theorem tonal_stats_cex :
    (create_tonal ⟨1, 2, [[0, 1]]⟩ 1 1 true).2.2.min = 1 / 2 ∧
    npMin ((⟨1, 2, [[0, 1]]⟩ : NDArr).data.flatten) = 0 ∧ (1 / 2 : ℚ) ≠ 0 := by
  refine ⟨?_, by decide, by norm_num⟩
  rw [create_tonal_stats_eq]
  norm_num [averageTones, slice2, secStart, secEnd, npMean, npMin,
    List.range_succ]

/-- **C3** witness. -/
theorem tonal_stats_over_averages_witness :
    (⟨1, 1, [[0]]⟩ : NDArr).wf ∧ 0 < 1 ∧ 1 ≤ (⟨1, 1, [[0]]⟩ : NDArr).h ∧
    1 ≤ (⟨1, 1, [[0]]⟩ : NDArr).w ∧
    (((create_tonal ⟨1, 1, [[0]]⟩ 1 1 false).2.2.mean =
      (∑ i ∈ Finset.range 1, ∑ j ∈ Finset.range 1,
        gridAt (averageTones ⟨1, 1, [[0]]⟩ 1 1) i j) / ((1 * 1 : ℕ) : ℚ)) ∧
    ((create_tonal ⟨1, 1, [[0]]⟩ 1 1 false).2.2.stdSq =
      (∑ i ∈ Finset.range 1, ∑ j ∈ Finset.range 1,
        (gridAt (averageTones ⟨1, 1, [[0]]⟩ 1 1) i j -
          (create_tonal ⟨1, 1, [[0]]⟩ 1 1 false).2.2.mean) ^ 2) /
        ((1 * 1 : ℕ) : ℚ)) ∧
    (∀ i < 1, ∀ j < 1,
      (create_tonal ⟨1, 1, [[0]]⟩ 1 1 false).2.2.min ≤
        gridAt (averageTones ⟨1, 1, [[0]]⟩ 1 1) i j ∧
      gridAt (averageTones ⟨1, 1, [[0]]⟩ 1 1) i j ≤
        (create_tonal ⟨1, 1, [[0]]⟩ 1 1 false).2.2.max) ∧
    (∃ i < 1, ∃ j < 1, gridAt (averageTones ⟨1, 1, [[0]]⟩ 1 1) i j =
      (create_tonal ⟨1, 1, [[0]]⟩ 1 1 false).2.2.min) ∧
    (∃ i < 1, ∃ j < 1, gridAt (averageTones ⟨1, 1, [[0]]⟩ 1 1) i j =
      (create_tonal ⟨1, 1, [[0]]⟩ 1 1 false).2.2.max)) :=
  ⟨by decide, by decide, by decide, by decide,
    tonal_stats_over_averages ⟨1, 1, [[0]]⟩ 1 1 false (by decide) (by decide)
      (by decide) (by decide) (by decide)⟩

theorem sum_drop_take (l : List ℚ) (a b : ℕ) (hab : a + b ≤ l.length) :
    ((l.drop a).take b).sum = ∑ k ∈ Finset.range b, l.getD (a + k) 0 := by
  have h := sum_map_drop_take id (0 : ℚ) l a b hab
  rwa [List.map_id] at h

theorem npMean_slice (data : List (List ℚ)) (h w ys ye xs xe : ℕ)
    (hlen : data.length = h) (hrows : ∀ r ∈ data, r.length = w)
    (hy1 : ys ≤ ye) (hy2 : ye ≤ h) (hx1 : xs ≤ xe) (hx2 : xe ≤ w) :
    npMean (slice2 data ys ye xs xe) =
      (∑ y ∈ Finset.Ico ys ye, ∑ x ∈ Finset.Ico xs xe,
        (data.getD y []).getD x 0) / (((ye - ys) * (xe - xs) : ℕ) : ℚ) := by
  have hrow : ∀ k, k < ye - ys → (data.getD (ys + k) []).length = w := by
    intro k hk
    have hk' : ys + k < data.length := by omega
    rw [List.getD_eq_getElem _ _ hk']
    exact hrows _ (data.getElem_mem hk')
  unfold npMean slice2
  rw [List.map_map, List.map_map]
  rw [sum_map_drop_take _ [] data ys (ye - ys) (by omega),
    sum_map_drop_take _ [] data ys (ye - ys) (by omega)]
  have hnum : ∀ k ∈ Finset.range (ye - ys),
      (List.sum ∘ fun row => (row.drop xs).take (xe - xs))
          (data.getD (ys + k) []) =
        ∑ x ∈ Finset.Ico xs xe, (data.getD (ys + k) []).getD x 0 := by
    intro k hk
    have hk' := Finset.mem_range.mp hk
    show ((((data.getD (ys + k) []).drop xs)).take (xe - xs)).sum = _
    rw [sum_drop_take _ xs (xe - xs) (by rw [hrow k hk']; omega),
      Finset.sum_Ico_eq_sum_range]
  have hden : ∀ k ∈ Finset.range (ye - ys),
      (List.length ∘ fun row => (row.drop xs).take (xe - xs))
          (data.getD (ys + k) []) = xe - xs := by
    intro k hk
    have hk' := Finset.mem_range.mp hk
    show (((data.getD (ys + k) []).drop xs).take (xe - xs)).length = _
    rw [List.length_take, List.length_drop, hrow k hk']
    omega
  rw [Finset.sum_congr rfl hnum, Finset.sum_congr rfl hden]
  rw [Finset.sum_const, Finset.card_range, smul_eq_mul,
    Finset.sum_Ico_eq_sum_range]

theorem secBounds (extent parts i : ℕ) (_h0 : 0 < parts)
    (_hpe : parts ≤ extent) (hi : i < parts) :
    secStart (extent / parts) i ≤ secEnd extent (extent / parts) parts i ∧
    secEnd extent (extent / parts) parts i ≤ extent := by
  have hdiv : parts * (extent / parts) ≤ extent := Nat.mul_div_le extent parts
  unfold secStart secEnd
  by_cases hlt : i < parts - 1
  · rw [if_pos hlt]
    constructor
    · exact Nat.mul_le_mul_right _ (by omega)
    · calc (i + 1) * (extent / parts) ≤ parts * (extent / parts) :=
            Nat.mul_le_mul_right _ (by omega)
        _ ≤ extent := hdiv
  · rw [if_neg hlt]
    constructor
    · calc i * (extent / parts) ≤ parts * (extent / parts) :=
            Nat.mul_le_mul_right _ (by omega)
        _ ≤ extent := hdiv
    · exact le_refl extent

theorem sec_mem_iff (extent parts i y : ℕ) (h0 : 0 < parts)
    (hpe : parts ≤ extent) (hi : i < parts) (hy : y < extent) :
    (secStart (extent / parts) i ≤ y ∧
      y < secEnd extent (extent / parts) parts i) ↔
      secIdx extent parts y = i := by
  have hsh : 1 ≤ extent / parts := (Nat.one_le_div_iff h0).mpr hpe
  have hsh0 : 0 < extent / parts := hsh
  unfold secStart secEnd secIdx
  by_cases hlt : i < parts - 1
  · rw [if_pos hlt]
    constructor
    · rintro ⟨hlo, hhi⟩
      have hdiv : y / (extent / parts) = i := Nat.div_eq_of_lt_le hlo hhi
      rw [hdiv]
      omega
    · intro hmin
      have hq : y / (extent / parts) = i := by omega
      constructor
      · exact (Nat.le_div_iff_mul_le hsh0).mp (le_of_eq hq.symm)
      · exact (Nat.div_lt_iff_lt_mul hsh0).mp (by omega)
  · rw [if_neg hlt]
    have hieq : i = parts - 1 := by omega
    constructor
    · rintro ⟨hlo, _⟩
      have : i ≤ y / (extent / parts) := (Nat.le_div_iff_mul_le hsh0).mpr hlo
      omega
    · intro hmin
      have : parts - 1 ≤ y / (extent / parts) := by omega
      have hlo : (parts - 1) * (extent / parts) ≤ y :=
        (Nat.le_div_iff_mul_le hsh0).mp this
      refine ⟨?_, hy⟩
      rw [hieq]
      exact hlo

theorem length_setRegion (img : List (List ℚ)) (ys ye xs xe : ℕ) (v : ℚ) :
    (setRegion img ys ye xs xe v).length = img.length := by
  unfold setRegion
  exact List.length_mapIdx

theorem rowlen_setRegion (img : List (List ℚ)) (ys ye xs xe : ℕ) (v : ℚ)
    (y : ℕ) (hy : y < img.length) :
    ((setRegion img ys ye xs xe v).getD y []).length =
      (img.getD y []).length := by
  unfold setRegion
  have hy' : y < (img.mapIdx (fun y row =>
      if ys ≤ y ∧ y < ye then
        row.mapIdx (fun x o => if xs ≤ x ∧ x < xe then v else o)
      else row)).length := by
    rw [List.length_mapIdx]
    exact hy
  rw [List.getD_eq_getElem _ _ hy', List.getElem_mapIdx,
    List.getD_eq_getElem _ _ hy]
  split
  · exact List.length_mapIdx
  · rfl

theorem gridAt_setRegion (img : List (List ℚ)) (ys ye xs xe : ℕ) (v : ℚ)
    (y x : ℕ) (hy : y < img.length) (hx : x < (img.getD y []).length) :
    gridAt (setRegion img ys ye xs xe v) y x =
      if ys ≤ y ∧ y < ye ∧ xs ≤ x ∧ x < xe then v else gridAt img y x := by
  unfold gridAt setRegion
  have hy' : y < (img.mapIdx (fun y row =>
      if ys ≤ y ∧ y < ye then
        row.mapIdx (fun x o => if xs ≤ x ∧ x < xe then v else o)
      else row)).length := by
    rw [List.length_mapIdx]
    exact hy
  rw [List.getD_eq_getElem _ _ hy', List.getElem_mapIdx,
    List.getD_eq_getElem _ _ hy]
  by_cases hrow : ys ≤ y ∧ y < ye
  · rw [if_pos hrow]
    have hx0 : x < img[y].length := by
      rwa [List.getD_eq_getElem _ _ hy] at hx
    have hx' : x < (img[y].mapIdx
        (fun x o => if xs ≤ x ∧ x < xe then v else o)).length := by
      rw [List.length_mapIdx]
      exact hx0
    rw [List.getD_eq_getElem _ _ hx', List.getElem_mapIdx,
      List.getD_eq_getElem _ _ hx0]
    by_cases hcol : xs ≤ x ∧ x < xe
    · rw [if_pos hcol, if_pos ⟨hrow.1, hrow.2, hcol.1, hcol.2⟩]
    · rw [if_neg hcol, if_neg (by tauto)]
  · rw [if_neg hrow, if_neg (by tauto)]

theorem gridAt_fillFold (h w rows cols : ℕ) (avg : List (List ℚ))
    (hr0 : 0 < rows) (hrh : rows ≤ h) (hc0 : 0 < cols) (hcw : cols ≤ w)
    (S : List (ℕ × ℕ)) (hS : ∀ p ∈ S, p.1 < rows ∧ p.2 < cols)
    (img : List (List ℚ)) (hlen : img.length = h)
    (hrows : ∀ y, y < h → (img.getD y []).length = w)
    (y x : ℕ) (hy : y < h) (hx : x < w) :
    gridAt (S.foldl (fun acc ij =>
      setRegion acc (secStart (h / rows) ij.1) (secEnd h (h / rows) rows ij.1)
        (secStart (w / cols) ij.2) (secEnd w (w / cols) cols ij.2)
        (gridAt avg ij.1 ij.2)) img) y x =
      if (secIdx h rows y, secIdx w cols x) ∈ S then
        gridAt avg (secIdx h rows y) (secIdx w cols x)
      else gridAt img y x := by
  induction S generalizing img with
  | nil => simp
  | cons p S ih =>
    rw [List.foldl_cons]
    have hp := hS p (List.mem_cons_self _ _)
    have hylen : y < img.length := by omega
    have hxlen : x < (img.getD y []).length := by
      rw [hrows y hy]
      exact hx
    have hlen' : (setRegion img (secStart (h / rows) p.1)
        (secEnd h (h / rows) rows p.1) (secStart (w / cols) p.2)
        (secEnd w (w / cols) cols p.2) (gridAt avg p.1 p.2)).length = h := by
      rw [length_setRegion, hlen]
    have hrows' : ∀ z, z < h → ((setRegion img (secStart (h / rows) p.1)
        (secEnd h (h / rows) rows p.1) (secStart (w / cols) p.2)
        (secEnd w (w / cols) cols p.2)
        (gridAt avg p.1 p.2)).getD z []).length = w := by
      intro z hz
      rw [rowlen_setRegion _ _ _ _ _ _ _ (by omega)]
      exact hrows z hz
    rw [ih (fun q hq => hS q (List.mem_cons_of_mem _ hq)) _ hlen' hrows']
    have hregion : gridAt (setRegion img (secStart (h / rows) p.1)
        (secEnd h (h / rows) rows p.1) (secStart (w / cols) p.2)
        (secEnd w (w / cols) cols p.2) (gridAt avg p.1 p.2)) y x =
        if secStart (h / rows) p.1 ≤ y ∧ y < secEnd h (h / rows) rows p.1 ∧
            secStart (w / cols) p.2 ≤ x ∧ x < secEnd w (w / cols) cols p.2 then
          gridAt avg p.1 p.2
        else gridAt img y x :=
      gridAt_setRegion img _ _ _ _ _ y x hylen hxlen
    have hiff : (secStart (h / rows) p.1 ≤ y ∧
        y < secEnd h (h / rows) rows p.1 ∧
        secStart (w / cols) p.2 ≤ x ∧
        x < secEnd w (w / cols) cols p.2) ↔
        (secIdx h rows y, secIdx w cols x) = p := by
      constructor
      · rintro ⟨h1, h2, h3, h4⟩
        have hr := (sec_mem_iff h rows p.1 y hr0 hrh hp.1 hy).mp ⟨h1, h2⟩
        have hc := (sec_mem_iff w cols p.2 x hc0 hcw hp.2 hx).mp ⟨h3, h4⟩
        rw [Prod.ext_iff]
        exact ⟨hr, hc⟩
      · intro hkey
        rw [Prod.ext_iff] at hkey
        have hr := (sec_mem_iff h rows p.1 y hr0 hrh hp.1 hy).mpr hkey.1
        have hc := (sec_mem_iff w cols p.2 x hc0 hcw hp.2 hx).mpr hkey.2
        exact ⟨hr.1, hr.2, hc.1, hc.2⟩
    by_cases hmem : (secIdx h rows y, secIdx w cols x) ∈ S
    · rw [if_pos hmem, if_pos (List.mem_cons_of_mem _ hmem)]
    · rw [if_neg hmem]
      by_cases hkey : (secIdx h rows y, secIdx w cols x) = p
      · rw [if_pos (List.mem_cons.mpr (Or.inl hkey)), hregion,
          if_pos (hiff.mpr hkey)]
        subst hkey
        rfl
      · rw [if_neg (fun hcc => by
          rcases List.mem_cons.mp hcc with hcc | hcc
          · exact hkey hcc
          · exact hmem hcc), hregion, if_neg (fun hcc => hkey (hiff.mp hcc))]

theorem mem_tonal_pairs (rows cols a b : ℕ) :
    (a, b) ∈ (List.range rows).flatMap (fun i =>
      (List.range cols).map (fun j => (i, j))) ↔ a < rows ∧ b < cols := by
  simp only [List.mem_flatMap, List.mem_map, List.mem_range, Prod.mk.injEq]
  constructor
  · rintro ⟨i, hi, j, hj, rfl, rfl⟩
    exact ⟨hi, hj⟩
  · rintro ⟨ha, hb⟩
    exact ⟨a, ha, b, hb, rfl, rfl⟩

/-- **C8**: every `average_tones[i][j]` is the arithmetic mean of the pixels
in its grid section (sections of size `(H / rows) × (W / cols)`, the last
row and column of sections extended to the border), and the full-size tonal
image returned with `return_full_image=True` is constant on each section,
holding that section's average. -/
theorem tonal_section_averages (gray : NDArr) (rows cols : ℕ) (hwf : gray.wf)
    (hr0 : 0 < rows) (hrh : rows ≤ gray.h) (hc0 : 0 < cols)
    (hcw : cols ≤ gray.w) :
    (∀ i < rows, ∀ j < cols,
      gridAt (averageTones gray rows cols) i j =
        (∑ y ∈ Finset.Ico (secStart (gray.h / rows) i)
            (secEnd gray.h (gray.h / rows) rows i),
          ∑ x ∈ Finset.Ico (secStart (gray.w / cols) j)
            (secEnd gray.w (gray.w / cols) cols j),
            gray.cell y x) /
        (((secEnd gray.h (gray.h / rows) rows i - secStart (gray.h / rows) i) *
          (secEnd gray.w (gray.w / cols) cols j -
            secStart (gray.w / cols) j) : ℕ) : ℚ)) ∧
    (∀ y < gray.h, ∀ x < gray.w,
      gridAt ((create_tonal gray rows cols true).1) y x =
        gridAt (averageTones gray rows cols)
          (secIdx gray.h rows y) (secIdx gray.w cols x)) := by
  constructor
  · intro i hi j hj
    rw [gridAt_averageTones gray rows cols i j hi hj]
    have hyb := secBounds gray.h rows i hr0 hrh hi
    have hxb := secBounds gray.w cols j hc0 hcw hj
    exact npMean_slice gray.data gray.h gray.w _ _ _ _ hwf.1 hwf.2
      hyb.1 hyb.2 hxb.1 hxb.2
  · intro y hy x hx
    have h1 : (create_tonal gray rows cols true).1 =
        fillTonal gray rows cols (averageTones gray rows cols) := rfl
    rw [h1]
    unfold fillTonal
    rw [gridAt_fillFold gray.h gray.w rows cols (averageTones gray rows cols)
      hr0 hrh hc0 hcw _
      (fun p hp => (mem_tonal_pairs rows cols p.1 p.2).mp hp)
      (List.replicate gray.h (List.replicate gray.w 0))
      (List.length_replicate _ _)
      (fun z hz => by
        have hz' : z < (List.replicate gray.h
            (List.replicate gray.w (0 : ℚ))).length := by
          rw [List.length_replicate]
          exact hz
        rw [List.getD_eq_getElem _ _ hz', List.getElem_replicate,
          List.length_replicate])
      y x hy hx]
    rw [if_pos ((mem_tonal_pairs rows cols _ _).mpr
      ⟨by unfold secIdx; omega, by unfold secIdx; omega⟩)]

/-- **C8** witness. -/
theorem tonal_section_averages_witness :
    (⟨1, 1, [[0]]⟩ : NDArr).wf ∧ (0 < 1 ∧ 1 ≤ (⟨1, 1, [[0]]⟩ : NDArr).h) ∧
    ((∀ i < 1, ∀ j < 1,
      gridAt (averageTones ⟨1, 1, [[0]]⟩ 1 1) i j =
        (∑ y ∈ Finset.Ico (secStart ((⟨1, 1, [[0]]⟩ : NDArr).h / 1) i)
            (secEnd (⟨1, 1, [[0]]⟩ : NDArr).h
              ((⟨1, 1, [[0]]⟩ : NDArr).h / 1) 1 i),
          ∑ x ∈ Finset.Ico (secStart ((⟨1, 1, [[0]]⟩ : NDArr).w / 1) j)
            (secEnd (⟨1, 1, [[0]]⟩ : NDArr).w
              ((⟨1, 1, [[0]]⟩ : NDArr).w / 1) 1 j),
            (⟨1, 1, [[0]]⟩ : NDArr).cell y x) /
        (((secEnd (⟨1, 1, [[0]]⟩ : NDArr).h ((⟨1, 1, [[0]]⟩ : NDArr).h / 1) 1 i -
            secStart ((⟨1, 1, [[0]]⟩ : NDArr).h / 1) i) *
          (secEnd (⟨1, 1, [[0]]⟩ : NDArr).w ((⟨1, 1, [[0]]⟩ : NDArr).w / 1) 1 j -
            secStart ((⟨1, 1, [[0]]⟩ : NDArr).w / 1) j) : ℕ) : ℚ)) ∧
    (∀ y < (⟨1, 1, [[0]]⟩ : NDArr).h, ∀ x < (⟨1, 1, [[0]]⟩ : NDArr).w,
      gridAt ((create_tonal ⟨1, 1, [[0]]⟩ 1 1 true).1) y x =
        gridAt (averageTones ⟨1, 1, [[0]]⟩ 1 1)
          (secIdx (⟨1, 1, [[0]]⟩ : NDArr).h 1 y)
          (secIdx (⟨1, 1, [[0]]⟩ : NDArr).w 1 x))) :=
  ⟨by decide, ⟨by decide, by decide⟩,
    tonal_section_averages ⟨1, 1, [[0]]⟩ 1 1 (by decide) (by decide)
      (by decide) (by decide) (by decide)⟩

/-! ### Block letter mask generator -/

/-- **C9**: for positive height and width, a non-empty letter and a font
size ratio in (0, 1], `create_block_letter_s` succeeds and returns a 2D
array of shape `(height, width)` whose every value lies in [0, 1] — the
8-bit canvas Pillow guarantees, divided by 255. -/
theorem block_letter_shape_range (M : PILOracle) (height width : ℕ)
    (letter : String) (font_size_ratio : ℚ) (hM : M.wf) (hh : 0 < height)
    (hw : 0 < width) (hl : letter ≠ "") (hr0 : 0 < font_size_ratio)
    (hr1 : font_size_ratio ≤ 1) :
    ∃ arr, create_block_letter_s M height width letter font_size_ratio =
        Except.ok arr ∧
      arr.length = height ∧
      ∀ row ∈ arr, row.length = width ∧ ∀ v ∈ row, 0 ≤ v ∧ v ≤ 1 := by
  unfold create_block_letter_s
  rw [if_neg (by omega), if_neg hl, if_neg (by push_neg; exact ⟨hr0, hr1⟩)]
  refine ⟨_, rfl, ?_, ?_⟩
  · rw [List.length_map]
    exact (hM _ _ _ _ _).1
  · intro row hrow
    obtain ⟨r, hr, rfl⟩ := List.mem_map.mp hrow
    have hrw := (hM _ _ _ _ _).2 r hr
    constructor
    · rw [List.length_map]
      exact hrw.1
    · intro v hv
      obtain ⟨n, hn, rfl⟩ := List.mem_map.mp hv
      have hn255 : n ≤ 255 := hrw.2 n hn
      constructor
      · positivity
      · rw [div_le_one (by norm_num)]
        exact_mod_cast hn255

/-- **C9** witness. -/
theorem block_letter_shape_range_witness :
    (PILOracle.mk (fun _ _ => (0, 0, 1, 1))
        (fun w h _ _ _ => List.replicate h (List.replicate w 0))).wf ∧
    0 < 2 ∧ 0 < 3 ∧ ("S" : String) ≠ "" ∧ (0 : ℚ) < 1 ∧
    ∃ arr, create_block_letter_s
        (PILOracle.mk (fun _ _ => (0, 0, 1, 1))
          (fun w h _ _ _ => List.replicate h (List.replicate w 0)))
        2 3 "S" 1 = Except.ok arr ∧
      arr.length = 2 ∧
      ∀ row ∈ arr, row.length = 3 ∧ ∀ v ∈ row, 0 ≤ v ∧ v ≤ 1 := by
  have hM : (PILOracle.mk (fun _ _ => (0, 0, 1, 1))
      (fun w h _ _ _ => List.replicate h (List.replicate w 0))).wf := by
    intro w h pos s fs
    refine ⟨List.length_replicate _ _, ?_⟩
    intro row hrow
    rw [List.eq_of_mem_replicate hrow]
    refine ⟨List.length_replicate _ _, ?_⟩
    intro v hv
    rw [List.eq_of_mem_replicate hv]
    omega
  exact ⟨hM, by decide, by decide, by decide, by decide,
    block_letter_shape_range _ 2 3 "S" 1 hM (by decide) (by decide)
      (by decide) (by decide) (by decide)⟩

/-! ### Stippling core (modelled from the specification) -/

theorem pickBest_some (l : List (ℚ × ℚ)) (jf : ℕ × ℚ)
    (h : pickBest l = some jf) :
    jf.1 < l.length ∧ (l.getD jf.1 (0, 0)).1 = 1 := by
  induction l generalizing jf with
  | nil => simp [pickBest] at h
  | cons pe rest ih =>
    rw [pickBest] at h
    cases hrec : pickBest rest with
    | none =>
      rw [hrec] at h
      by_cases h1 : pe.1 = 1
      · rw [if_pos h1] at h
        obtain rfl := (Option.some.injEq _ _).mp h.symm
        exact ⟨by simp, by rwa [List.getD_cons_zero]⟩
      · rw [if_neg h1] at h
        simp at h
    | some jf' =>
      rw [hrec] at h
      dsimp only at h
      have hih := ih jf' hrec
      by_cases h1 : pe.1 = 1
      · rw [if_pos h1] at h
        by_cases h2 : pe.2 < jf'.2
        · rw [if_pos h2] at h
          obtain rfl := (Option.some.injEq _ _).mp h.symm
          refine ⟨by simp; omega, ?_⟩
          rw [List.getD_cons_succ]
          exact hih.2
        · rw [if_neg h2] at h
          obtain rfl := (Option.some.injEq _ _).mp h.symm
          exact ⟨by simp, by rwa [List.getD_cons_zero]⟩
      · rw [if_neg h1] at h
        obtain rfl := (Option.some.injEq _ _).mp h.symm
        refine ⟨by simp; omega, ?_⟩
        rw [List.getD_cons_succ]
        exact hih.2

theorem pickBest_none (l : List (ℚ × ℚ)) (h : pickBest l = none) :
    ∀ pe ∈ l, pe.1 ≠ 1 := by
  induction l with
  | nil => simp
  | cons pe rest ih =>
    rw [pickBest] at h
    cases hrec : pickBest rest with
    | none =>
      rw [hrec] at h
      intro qe hqe
      rcases List.mem_cons.mp hqe with rfl | hqe'
      · by_cases h1 : qe.1 = 1
        · rw [if_pos h1] at h
          simp at h
        · exact h1
      · exact ih hrec qe hqe'
    | some jf =>
      rw [hrec] at h
      dsimp only at h
      by_cases h1 : pe.1 = 1
      · rw [if_pos h1] at h
        by_cases h2 : pe.2 < jf.2
        · rw [if_pos h2] at h
          simp at h
        · rw [if_neg h2] at h
          simp at h
      · rw [if_neg h1] at h
        simp at h

/-- The invariant maintained by the placement loop: after `k` placements on
an `n`-cell grid, the pattern is 0/1-valued with `k` zeros and `n - k`
ones, the energy field still covers all `n` cells, and `k` samples have
been emitted. -/
def VacInv (n k : ℕ) (st : VacState) : Prop :=
  st.pattern.length = n ∧ st.energy.length = n ∧
  (∀ v ∈ st.pattern, v = 0 ∨ v = 1) ∧
  st.pattern.count 0 = k ∧ st.pattern.count 1 = n - k ∧
  st.samples.length = k

theorem vacStep_inv (w : ℕ) (grayFlat : List ℚ) (kernel : ℕ → ℚ) (nsf : ℚ)
    (rng : ℕ → ℕ → ℚ) (it : ℕ) (st : VacState) (n k : ℕ)
    (hinv : VacInv n k st) (hk : k < n) :
    VacInv n (k + 1) (vacStep w grayFlat kernel nsf rng it st) := by
  obtain ⟨hplen, helen, hvals, hc0, hc1, hslen⟩ := hinv
  simp only [vacStep]
  have hen : (List.zipWith (· + ·) st.energy
      ((List.range st.energy.length).map (fun idx => nsf * rng it idx))).length
      = n := by
    rw [List.length_zipWith, List.length_map, List.length_range, helen]
    exact min_self n
  have hzip : (st.pattern.zip (List.zipWith (· + ·) st.energy
      ((List.range st.energy.length).map (fun idx => nsf * rng it idx)))).length
      = n := by
    rw [List.length_zip, hplen, hen]
    exact min_self n
  cases hpick : pickBest (st.pattern.zip (List.zipWith (· + ·) st.energy
      ((List.range st.energy.length).map (fun idx => nsf * rng it idx)))) with
  | none =>
    exfalso
    have hmem : (1 : ℚ) ∈ st.pattern := by
      rw [← List.count_pos_iff]
      omega
    obtain ⟨i, hi, hpi⟩ := List.mem_iff_getElem.mp hmem
    have hizip : i < (st.pattern.zip (List.zipWith (· + ·) st.energy
        ((List.range st.energy.length).map
          (fun idx => nsf * rng it idx)))).length := by omega
    have := pickBest_none _ hpick _ (List.mem_iff_getElem.mpr ⟨i, hizip, rfl⟩)
    rw [List.getElem_zip] at this
    exact this (by rw [hpi])
  | some pick =>
    have hsome := pickBest_some _ _ hpick
    rw [hzip] at hsome
    have hzget : ((st.pattern.zip (List.zipWith (· + ·) st.energy
        ((List.range st.energy.length).map
          (fun idx => nsf * rng it idx)))).getD pick.1 (0, 0)).1 =
        st.pattern.getD pick.1 0 := by
      have hb : pick.1 < (st.pattern.zip (List.zipWith (· + ·) st.energy
          ((List.range st.energy.length).map
            (fun idx => nsf * rng it idx)))).length := by omega
      rw [List.getD_eq_getElem _ _ hb, List.getElem_zip,
        List.getD_eq_getElem _ _ (by omega : pick.1 < st.pattern.length)]
    have hpat1 : st.pattern.getD pick.1 0 = 1 := by
      rw [← hzget]
      exact hsome.2
    have hb' : pick.1 < st.pattern.length := by omega
    have hget1 : st.pattern[pick.1] = 1 := by
      rwa [List.getD_eq_getElem _ _ hb'] at hpat1
    dsimp only
    unfold VacInv
    refine ⟨?_, ?_, ?_, ?_, ?_, ?_⟩
    · rw [List.length_set]
      exact hplen
    · rw [List.length_mapIdx]
      exact hen
    · intro v hv
      rcases List.mem_or_eq_of_mem_set hv with hv' | rfl
      · exact hvals v hv'
      · exact Or.inl rfl
    · rw [List.count_set _ _ _ _ hb', hget1]
      simp
      omega
    · rw [List.count_set _ _ _ _ hb', hget1]
      simp
      omega
    · rw [List.length_append, hslen]
      rfl

theorem vac_run_inv (w : ℕ) (grayFlat : List ℚ) (kernel : ℕ → ℚ) (nsf : ℚ)
    (rng : ℕ → ℕ → ℚ) (its : List ℕ) (st : VacState) (n k : ℕ)
    (hinv : VacInv n k st) (hlen : k + its.length ≤ n) :
    VacInv n (k + its.length)
      (its.foldl (fun st it => vacStep w grayFlat kernel nsf rng it st) st) := by
  induction its generalizing st k with
  | nil => simpa using hinv
  | cons it its ih =>
    rw [List.foldl_cons]
    have hstep := vacStep_inv w grayFlat kernel nsf rng it st n k hinv
      (by simp at hlen; omega)
    have := ih (vacStep w grayFlat kernel nsf rng it st) (k + 1) hstep
      (by simp at hlen ⊢; omega)
    simpa [Nat.add_assoc, Nat.add_comm 1 its.length] using this

theorem countZeros2_unflatten (l : List ℚ) (h w : ℕ) (hl : l.length = h * w) :
    countZeros2 ((List.range h).map (fun r => (l.drop (r * w)).take w)) =
      l.count 0 := by
  induction h generalizing l with
  | zero =>
    have : l = [] := by
      rw [← List.length_eq_zero]
      omega
    subst this
    simp [countZeros2]
  | succ hh ih =>
    unfold countZeros2
    rw [List.range_succ_eq_map, List.map_cons, List.map_map, List.map_cons,
      List.sum_cons]
    have h1 : (l.drop (0 * w)).take w = l.take w := by
      norm_num
    have h2 : (List.range hh).map ((fun r => (l.drop (r * w)).take w) ∘
        Nat.succ) = (List.range hh).map
        (fun r => (((l.drop w).drop (r * w)).take w)) := by
      refine List.map_congr_left (fun r _ => ?_)
      show (l.drop (r.succ * w)).take w = _
      rw [List.drop_drop, Nat.succ_mul, Nat.add_comm (r * w) w]
    rw [h1, h2]
    have ih' := ih (l.drop w)
      (by rw [List.length_drop, hl, Nat.succ_mul]; omega)
    unfold countZeros2 at ih'
    rw [ih']
    rw [← List.count_append, List.take_append_drop]

theorem flatten_length_rect (A : List (List ℚ)) (w : ℕ)
    (hrect : ∀ r ∈ A, r.length = w) : A.flatten.length = A.length * w := by
  rw [List.length_flatten]
  have h1 : A.map List.length = A.map (fun _ => w) :=
    List.map_congr_left (fun r hr => hrect r hr)
  rw [h1, List.map_const', List.sum_replicate, smul_eq_mul]

/-- Modelled from the spec: the target placement count
`round(percentage × H × W)` never exceeds the pixel count when the
percentage is at most 1. -/
theorem round_target_le (p : ℚ) (hw : ℕ) (_hp0 : 0 < p) (hp1 : p ≤ 1) :
    (round (p * ((hw : ℕ) : ℚ))).toNat ≤ hw := by
  have hmul : p * ((hw : ℕ) : ℚ) ≤ ((hw : ℕ) : ℚ) :=
    mul_le_of_le_one_left (by positivity) hp1
  have hround : round (p * ((hw : ℕ) : ℚ)) ≤ round (((hw : ℕ) : ℚ)) := by
    rw [round_eq, round_eq]
    exact Int.floor_le_floor (by linarith)
  rw [round_natCast] at hround
  calc (round (p * ((hw : ℕ) : ℚ))).toNat ≤ ((hw : ℤ)).toNat :=
        Int.toNat_le_toNat hround
    _ = hw := Int.toNat_natCast hw

theorem void_and_cluster_counts (gray importance_img : List (List ℚ))
    (percentage sigma content_bias noise_scale_factor : ℚ)
    (kernel : ℕ → ℚ) (rng : ℕ → ℕ → ℚ)
    (hshape : gray.map List.length = importance_img.map List.length)
    (hrect : ∀ r ∈ gray, r.length = (gray.headD []).length)
    (hp0 : 0 < percentage) (hp1 : percentage ≤ 1) (hsig : 0 < sigma)
    (hcb : 0 ≤ content_bias ∧ content_bias ≤ 1)
    (hnsf : 0 ≤ noise_scale_factor) :
    ∃ pat samples,
      void_and_cluster gray importance_img percentage sigma content_bias
        noise_scale_factor kernel rng = Except.ok (pat, samples) ∧
      countZeros2 pat = (round (percentage *
        ((gray.length * (gray.headD []).length : ℕ) : ℚ))).toNat ∧
      samples.length = (round (percentage *
        ((gray.length * (gray.headD []).length : ℕ) : ℚ))).toNat := by
  have hflat : gray.flatten.length =
      gray.length * (gray.headD []).length :=
    flatten_length_rect gray _ hrect
  have himpflat : importance_img.flatten.length = gray.flatten.length := by
    rw [List.length_flatten, List.length_flatten, hshape]
  have htarget : (round (percentage *
      ((gray.length * (gray.headD []).length : ℕ) : ℚ))).toNat ≤
      gray.flatten.length := by
    rw [hflat]
    exact round_target_le percentage _ hp0 hp1
  unfold void_and_cluster
  rw [if_neg (not_not_intro hshape),
    if_neg (by push_neg; exact ⟨⟨hp0, hp1⟩, hsig, ⟨hcb.1, hcb.2⟩, hnsf⟩)]
  have hinv0 : VacInv gray.flatten.length 0
      { pattern := List.replicate gray.flatten.length 1
        energy := List.zipWith
          (fun tone imp => content_bias * (1 - tone) * imp)
          gray.flatten importance_img.flatten
        samples := [] } := by
    refine ⟨List.length_replicate _ _, ?_, ?_, ?_, ?_, rfl⟩
    · rw [List.length_zipWith, himpflat]
      exact min_self _
    · intro v hv
      exact Or.inr (List.eq_of_mem_replicate hv)
    · rw [List.count_replicate]
      simp
    · rw [List.count_replicate]
      simp
  have hrun := vac_run_inv ((gray.headD []).length) gray.flatten kernel
    noise_scale_factor rng
    (List.range ((round (percentage *
      ((gray.length * (gray.headD []).length : ℕ) : ℚ))).toNat)) _
    gray.flatten.length 0 hinv0
    (by rw [List.length_range]; omega)
  rw [List.length_range] at hrun
  obtain ⟨hplen, _, _, hc0, _, hslen⟩ := hrun
  refine ⟨_, _, rfl, ?_, ?_⟩
  · rw [countZeros2_unflatten _ gray.length ((gray.headD []).length)
      (by rw [hplen, hflat])]
    rw [hc0]
    omega
  · rw [hslen]
    omega

/-- **C1** (modelled from the spec, the stippling core not being among the
repository sources): for every non-empty rectangular grayscale image and
every percentage in (0, 1] (and valid remaining parameters, any repulsion
kernel and any noise source), `create_stipple` succeeds, its pattern has
exactly `round(percentage · H · W)` cells equal to 0.0, and its sample
sequence has exactly that length. -/
theorem stipple_zero_count (gray : List (List ℚ))
    (percentage sigma content_bias noise_scale_factor extreme_downweight
      extreme_threshold_low extreme_threshold_high extreme_sigma : ℚ)
    (kernel : ℕ → ℚ) (rng : ℕ → ℕ → ℚ)
    (hrect : ∀ r ∈ gray, r.length = (gray.headD []).length)
    (hh : gray.length ≠ 0) (hw : (gray.headD []).length ≠ 0)
    (hp0 : 0 < percentage) (hp1 : percentage ≤ 1)
    (hsig : 0 < sigma) (hcb : 0 ≤ content_bias ∧ content_bias ≤ 1)
    (hnsf : 0 ≤ noise_scale_factor)
    (hdw : 0 ≤ extreme_downweight ∧ extreme_downweight ≤ 1)
    (hlo : 0 ≤ extreme_threshold_low ∧ extreme_threshold_low ≤ 1)
    (hhi2 : 0 ≤ extreme_threshold_high ∧ extreme_threshold_high ≤ 1)
    (hlh : extreme_threshold_low < extreme_threshold_high)
    (hes : 0 < extreme_sigma) :
    ∃ pat samples,
      create_stipple gray percentage sigma content_bias noise_scale_factor
        extreme_downweight extreme_threshold_low extreme_threshold_high
        extreme_sigma kernel rng = Except.ok (pat, samples) ∧
      countZeros2 pat = (round (percentage *
        ((gray.length * (gray.headD []).length : ℕ) : ℚ))).toNat ∧
      samples.length = (round (percentage *
        ((gray.length * (gray.headD []).length : ℕ) : ℚ))).toNat := by
  unfold create_stipple
  have himp : compute_importance gray extreme_downweight
      extreme_threshold_low extreme_threshold_high extreme_sigma =
      Except.ok (gray.map (·.map (importanceAt extreme_downweight
        extreme_threshold_low extreme_threshold_high extreme_sigma))) := by
    unfold compute_importance
    rw [if_neg (by push_neg; exact ⟨hh, hw⟩),
      if_neg (by
        push_neg
        exact ⟨hlh, ⟨hlo.1, hlo.2⟩, ⟨hhi2.1, hhi2.2⟩, ⟨hdw.1, hdw.2⟩, hes⟩)]
  rw [himp]
  have hshape : gray.map List.length =
      (gray.map (·.map (importanceAt extreme_downweight
        extreme_threshold_low extreme_threshold_high
        extreme_sigma))).map List.length := by
    rw [List.map_map]
    exact List.map_congr_left (fun r _ => (List.length_map _ _).symm)
  exact void_and_cluster_counts gray _ percentage sigma content_bias
    noise_scale_factor kernel rng hshape hrect hp0 hp1 hsig hcb hnsf

/-- **C1** witness. -/
theorem stipple_zero_count_witness :
    (∀ r ∈ [[(0 : ℚ), 1]], r.length = ([[(0 : ℚ), 1]].headD []).length) ∧
    [[(0 : ℚ), 1]].length ≠ 0 ∧ ([[(0 : ℚ), 1]].headD []).length ≠ 0 ∧
    (0 : ℚ) < 1 ∧ (1 : ℚ) ≤ 1 ∧
    ∃ pat samples,
      create_stipple [[(0 : ℚ), 1]] 1 1 1 0 1 0 1 1 (fun _ => 0)
          (fun _ _ => 0) = Except.ok (pat, samples) ∧
      countZeros2 pat = (round ((1 : ℚ) *
        (([[(0 : ℚ), 1]].length *
          ([[(0 : ℚ), 1]].headD []).length : ℕ) : ℚ))).toNat ∧
      samples.length = (round ((1 : ℚ) *
        (([[(0 : ℚ), 1]].length *
          ([[(0 : ℚ), 1]].headD []).length : ℕ) : ℚ))).toNat :=
  ⟨by decide, by decide, by decide, by decide, by decide,
    stipple_zero_count [[0, 1]] 1 1 1 0 1 0 1 1 (fun _ => 0) (fun _ _ => 0)
      (by decide) (by decide) (by decide) (by decide) (by decide)
      (by decide) ⟨by decide, by decide⟩ (by decide)
      ⟨by decide, by decide⟩ ⟨by decide, by decide⟩
      ⟨by decide, by decide⟩ (by decide) (by decide)⟩
